import Mathlib

/-!
Verification of the request-lifecycle tracker (spec sections 3 to 5), the
sampling-parameter validation (vllm/sampling_params.py) and the engine
argument post-initialisation (vllm/engine/arg_utils.py).

The tracker implementation (vllm/engine/async_llm_engine.py, class
RequestTracker) is not part of the available sources; only its test file
is.  The tracker is therefore modelled from the specification text, and
every definition in the `Tracker` namespace carries a doc comment saying
so.  The sampling-parameter and engine-argument definitions are direct
translations of the Python sources.
-/

namespace Tracker

/-- Modelled from the spec: request identifiers are opaque caller-supplied
tokens (section 3); the tests use strings. -/
abbrev Id := String

/-- Modelled from the spec: submission-time parameters are opaque values
attached to a request (section 3); modelled as natural numbers. -/
abbrev Params := Nat

/-- Modelled from the spec: a result increment is an opaque payload together
with the boolean final marker the tracker must observe (section 6). -/
structure Result where
  payload : Nat
  isFinal : Bool
deriving DecidableEq, Repr

/-- Modelled from the spec: the per-request Output Stream, missing from the
sources (class AsyncStream of vllm/engine/async_llm_engine.py): an ordered
append-only sequence of result increments, a monotonic finished flag, and an
optional cancellation marker (section 3). -/
structure OutputStream where
  results : List Result
  finished : Bool
  cancelled : Bool
deriving DecidableEq, Repr

/-- Modelled from the spec: a freshly created stream is empty and not
finished (section 4.1, submit). -/
def OutputStream.empty : OutputStream :=
  { results := [], finished := false, cancelled := false }

/-- Modelled from the spec: an admission record carries the request
identifier and its submission-time parameters (section 3). -/
structure AdmissionRecord where
  id : Id
  params : Params
deriving DecidableEq, Repr

/-- Modelled from the spec: the Lifecycle Tracker state, missing from the
sources (class RequestTracker of vllm/engine/async_llm_engine.py): the
active registry, the two pending-delivery collections and the level
triggered wake signal (section 3). -/
structure RequestTracker where
  active : List (Id × OutputStream)
  pendingNew : List AdmissionRecord
  pendingFinished : List Id
  wake : Bool
deriving DecidableEq, Repr

/-- Look up the stream registered for an identifier in the active registry,
modelled as an association list searched front to back. -/
def lookupA (a : List (Id × OutputStream)) (id : Id) : Option OutputStream :=
  match a with
  | [] => none
  | (k, s) :: rest => if k = id then some s else lookupA rest id

/-- Replace the stream registered for an identifier in the active registry
(first matching entry, as a mapping holds one entry per key). -/
def updateA (a : List (Id × OutputStream)) (id : Id) (s : OutputStream) :
    List (Id × OutputStream) :=
  match a with
  | [] => []
  | (k, v) :: rest =>
      if k = id then (k, s) :: rest else (k, v) :: updateA rest id s

/-- Modelled from the spec: the tracker starts with no active requests,
nothing pending and the wake signal clear (section 3). -/
def RequestTracker.init : RequestTracker :=
  { active := [], pendingNew := [], pendingFinished := [], wake := false }

/-- Modelled from the spec: the DuplicateRequest error condition of submit
(section 7); the implementation surfaces it as a KeyError. -/
inductive SubmitError where
  | DuplicateRequest
deriving DecidableEq, Repr

/-- Modelled from the spec, section 4.1 submit: if the identifier is already
active the call fails with DuplicateRequest and mutates nothing; otherwise a
new empty stream is registered, an admission record is appended to
pendingNew, and wake is set. -/
def RequestTracker.submit (t : RequestTracker) (id : Id) (params : Params) :
    Except SubmitError (RequestTracker × OutputStream) :=
  match lookupA t.active id with
  | some _ => .error .DuplicateRequest
  | none =>
      let s := OutputStream.empty
      .ok ({ active := t.active ++ [(id, s)],
             pendingNew := t.pendingNew ++ [{ id := id, params := params }],
             pendingFinished := t.pendingFinished,
             wake := true }, s)

/-- Modelled from the spec, section 4.1 cancel: if the identifier is active
and not yet finished, its stream is marked finished with a cancellation
marker, any pending admission record for it is removed from pendingNew, the
identifier is added to pendingFinished, and wake is set; if the identifier
is unknown or already finished the call is a no-op. -/
def RequestTracker.cancel (t : RequestTracker) (id : Id) : RequestTracker :=
  match lookupA t.active id with
  | none => t
  | some s =>
      if s.finished then t
      else
        { active := updateA t.active id
            { s with finished := true, cancelled := true },
          pendingNew := t.pendingNew.filter (fun r => r.id != id),
          pendingFinished :=
            if id ∈ t.pendingFinished then t.pendingFinished
            else t.pendingFinished ++ [id],
          wake := true }

/-- Modelled from the spec, section 4.1 deliverResult: if the identifier is
active and its stream not finished, the result is appended; if the result is
marked final the stream becomes finished, the identifier is added to
pendingFinished and wake is set.  If the stream is already finished (or the
identifier unknown) the call is a no-op: the terminal state is never
overwritten. -/
def RequestTracker.deliverResult (t : RequestTracker) (id : Id) (res : Result) :
    RequestTracker :=
  match lookupA t.active id with
  | none => t
  | some s =>
      if s.finished then t
      else
        { active := updateA t.active id
            { s with results := s.results ++ [res], finished := res.isFinal },
          pendingNew := t.pendingNew,
          pendingFinished :=
            if res.isFinal then
              (if id ∈ t.pendingFinished then t.pendingFinished
               else t.pendingFinished ++ [id])
            else t.pendingFinished,
          wake := res.isFinal || t.wake }

/-- Modelled from the spec: the pair returned by drain, an ordered list of
admission records and the set of finished identifiers (section 4.1). -/
structure DrainResult where
  newAdmissions : List AdmissionRecord
  finishedIds : List Id
deriving DecidableEq, Repr

/-- Modelled from the spec, section 4.1 drain: atomically captures and
clears pendingNew and pendingFinished, removes every finished identifier
from the active registry, and clears wake (both pending collections are
empty at the moment of clearing, the operations being non-interleaving in
the cooperative model of section 5). -/
def RequestTracker.drain (t : RequestTracker) : DrainResult × RequestTracker :=
  ({ newAdmissions := t.pendingNew, finishedIds := t.pendingFinished },
   { active := t.active.filter (fun p => !(t.pendingFinished.contains p.1)),
     pendingNew := [],
     pendingFinished := [],
     wake := false })

/-- Modelled from the spec: one producer or consumer call, used to quantify
over all call sequences (section 8). -/
inductive Op where
  | submit (id : Id) (params : Params)
  | cancel (id : Id)
  | deliver (id : Id) (res : Result)
  | drain
deriving DecidableEq, Repr

/-- Modelled from the spec: the state transition of one call; a failing
submit leaves the state unchanged (section 4.1). -/
def RequestTracker.step (t : RequestTracker) (op : Op) : RequestTracker :=
  match op with
  | .submit id p =>
      match t.submit id p with
      | .ok (t1, _) => t1
      | .error _ => t
  | .cancel id => t.cancel id
  | .deliver id r => t.deliverResult id r
  | .drain => (t.drain).2

/-- Modelled from the spec: running a sequence of calls from a state. -/
def RequestTracker.run (t : RequestTracker) (ops : List Op) : RequestTracker :=
  ops.foldl RequestTracker.step t

/-- The drain result emitted by one call: a drain call emits its snapshot,
every other call emits nothing. -/
def emits (t : RequestTracker) (op : Op) : List DrainResult :=
  match op with
  | .drain => [(t.drain).1]
  | .submit _ _ => []
  | .cancel _ => []
  | .deliver _ _ => []

/-- Modelled from the spec: the ordered list of drain results produced while
running a sequence of calls (section 8). -/
def drainResults (t : RequestTracker) (ops : List Op) : List DrainResult :=
  match ops with
  | [] => []
  | op :: rest => emits t op ++ drainResults (t.step op) rest

/-- The identifiers named by a list of admission records. -/
def admIds (l : List AdmissionRecord) : List Id :=
  l.map AdmissionRecord.id

/-- In the given state, a cancel of this identifier would suppress a pending
admission record: the record is still in pendingNew and the stream is active
and not yet finished, so the cancel takes the effective branch and the
record is removed before any drain can observe it (section 4.1 cancel). -/
def suppressesB (t : RequestTracker) (id : Id) : Bool :=
  (admIds t.pendingNew).contains id &&
    (match lookupA t.active id with
     | some s => !s.finished
     | none => false)

/-- Modelled from the spec: the identifier was cancelled at a moment when
its admission record was still pending, so the record was suppressed and no
drain observed that admission (section 4.1 cancel). -/
def cancelledWhilePending (t : RequestTracker) (ops : List Op) (id : Id) : Prop :=
  ∃ k < ops.length,
    ops[k]? = some (Op.cancel id) ∧
    suppressesB (RequestTracker.run t (ops.take k)) id = true

instance (t : RequestTracker) (ops : List Op) (id : Id) :
    Decidable (cancelledWhilePending t ops id) := by
  unfold cancelledWhilePending
  infer_instance

/-- Some drain result in the list reported this identifier as newly
admitted. -/
def AdmittedBy (ds : List DrainResult) (id : Id) : Prop :=
  ∃ d ∈ ds, id ∈ admIds d.newAdmissions

instance (ds : List DrainResult) (id : Id) : Decidable (AdmittedBy ds id) := by
  unfold AdmittedBy
  infer_instance

/-- How many times the drain results of the list report this identifier as
newly admitted. -/
def admOcc (ds : List DrainResult) (id : Id) : Nat :=
  (ds.map (fun d => (admIds d.newAdmissions).count id)).sum

/-- How many calls of the sequence are cancels of this identifier that
suppress a pending admission record. -/
def supCountR (t : RequestTracker) (ops : List Op) (id : Id) : Nat :=
  match ops with
  | [] => 0
  | op :: rest =>
      (if op = Op.cancel id ∧ suppressesB t id = true then 1 else 0) +
        supCountR (t.step op) rest id

/-- How many calls of the sequence are submits of this identifier. -/
def subCalls (ops : List Op) (id : Id) : Nat :=
  ops.countP (fun op =>
    match op with
    | .submit i _ => i == id
    | _ => false)

/-- Claim C2 exactly as stated: every identifier in the finished set of a
drain was previously (in a strictly earlier drain) reported as newly
admitted, or cancelled while its admission was pending, and never both. -/
def claimC2stated (ops : List Op) : Prop :=
  ∀ k < ops.length, ops[k]? = some Op.drain →
    ∀ id ∈ (RequestTracker.run RequestTracker.init (ops.take k)).pendingFinished,
      (AdmittedBy (drainResults RequestTracker.init (ops.take k)) id ∨
        cancelledWhilePending RequestTracker.init (ops.take k) id) ∧
      ¬(AdmittedBy (drainResults RequestTracker.init (ops.take k)) id ∧
        cancelledWhilePending RequestTracker.init (ops.take k) id)

instance (ops : List Op) : Decidable (claimC2stated ops) := by
  unfold claimC2stated
  infer_instance

/-- The inductive invariant tying the pending-finished set to its cause:
every pending finished identifier either still has its admission record
pending (to be reported by the same drain), was already reported as newly
admitted by an earlier drain, or was cancelled while its admission was
pending; every active unfinished request is pending or already admitted;
every pending finished identifier owns a finished active stream; and active
registry keys are unique. -/
def TrackerInv (q : List Op) : Prop :=
  (∀ id ∈ (RequestTracker.run RequestTracker.init q).pendingFinished,
      id ∈ admIds (RequestTracker.run RequestTracker.init q).pendingNew ∨
      AdmittedBy (drainResults RequestTracker.init q) id ∨
      cancelledWhilePending RequestTracker.init q id) ∧
  (∀ e ∈ (RequestTracker.run RequestTracker.init q).active, e.2.finished = false →
      e.1 ∈ admIds (RequestTracker.run RequestTracker.init q).pendingNew ∨
      AdmittedBy (drainResults RequestTracker.init q) e.1) ∧
  (∀ id ∈ (RequestTracker.run RequestTracker.init q).pendingFinished,
      ∃ s, lookupA (RequestTracker.run RequestTracker.init q).active id = some s ∧
        s.finished = true) ∧
  ((RequestTracker.run RequestTracker.init q).active.map Prod.fst).Nodup

end Tracker

namespace Sampling

/-- The sampling epsilon of vllm/sampling_params.py, used for all closeness
comparisons (the floating-point literal 1e-5 modelled as a rational). -/
def SAMPLING_EPS : ℚ := 1 / 100000

/-- The SamplingType enumeration of vllm/sampling_params.py. -/
inductive SamplingType where
  | GREEDY
  | RANDOM
  | BEAM
deriving DecidableEq, Repr

/-- The `early_stopping` field holds a Python bool or string
(Union[bool, str] in the source). -/
inductive EarlyStopping where
  | ofBool (b : Bool)
  | ofString (s : String)
deriving DecidableEq, Repr

/-- Errors raised by SamplingParams validation: the assert of
`__post_init__` raises AssertionError, the range checks raise ValueError. -/
inductive PyError where
  | assertionError (msg : String)
  | valueError (msg : String)
deriving DecidableEq, Repr

/-- The field record of class SamplingParams (vllm/sampling_params.py) with
the source's defaults; floats are modelled as rationals, Python ints as
integers.  The `logits_processors` and `response_format` fields are opaque
to the validation logic and modelled as unit options. -/
structure SamplingParams where
  n : Int := 1
  best_of : Option Int := some 0
  presence_penalty : ℚ := 0
  frequency_penalty : ℚ := 0
  repetition_penalty : ℚ := 1
  temperature : ℚ := 1
  top_p : ℚ := 1
  top_k : Int := -1
  min_p : ℚ := 0
  use_beam_search : Bool := false
  length_penalty : ℚ := 1
  early_stopping : EarlyStopping := .ofBool false
  stop : List String := []
  stop_token_ids : List Int := []
  ignore_eos : Bool := false
  max_tokens : Int := 16
  logprobs : Option Int := none
  prompt_logprobs : Option Int := none
  skip_special_tokens : Bool := true
  spaces_between_special_tokens : Bool := true
  logits_processors : Option Unit := none
  response_format : Option Unit := none
deriving DecidableEq, Repr

/-- The property `actual_best_of`: best_of when it is not None and positive,
otherwise n. -/
def SamplingParams.actual_best_of (p : SamplingParams) : Int :=
  match p.best_of with
  | some b => if b > 0 then b else p.n
  | none => p.n

/-- The property `sampling_type`. -/
def SamplingParams.sampling_type (p : SamplingParams) : SamplingType :=
  if p.use_beam_search then .BEAM
  else if p.temperature < SAMPLING_EPS then .GREEDY
  else .RANDOM

/-- The method `_verify_args`: the chain of range checks, each raising a
ValueError, in source order. -/
def SamplingParams.verify_args (p : SamplingParams) : Except PyError Unit :=
  if p.n < 1 then .error (.valueError "n must be at least 1")
  else if p.actual_best_of < p.n then
    .error (.valueError "best_of must be greater than or equal to n")
  else if ¬(-2 ≤ p.presence_penalty ∧ p.presence_penalty ≤ 2) then
    .error (.valueError "presence_penalty must be in [-2, 2]")
  else if ¬(-2 ≤ p.frequency_penalty ∧ p.frequency_penalty ≤ 2) then
    .error (.valueError "frequency_penalty must be in [-2, 2]")
  else if ¬(0 < p.repetition_penalty ∧ p.repetition_penalty ≤ 2) then
    .error (.valueError "repetition_penalty must be in (0, 2]")
  else if p.temperature < 0 then
    .error (.valueError "temperature must be non-negative")
  else if ¬(0 < p.top_p ∧ p.top_p ≤ 1) then
    .error (.valueError "top_p must be in (0, 1]")
  else if p.top_k < -1 ∨ p.top_k = 0 then
    .error (.valueError "top_k must be -1 (disable), or at least 1")
  else if ¬(0 ≤ p.min_p ∧ p.min_p ≤ 1) then
    .error (.valueError "min_p must be in [0, 1]")
  else if p.max_tokens < 1 then
    .error (.valueError "max_tokens must be at least 1")
  else if ∃ l, p.logprobs = some l ∧ l < 0 then
    .error (.valueError "logprobs must be non-negative")
  else if ∃ l, p.prompt_logprobs = some l ∧ l < 0 then
    .error (.valueError "prompt_logprobs must be non-negative")
  else .ok ()

/-- The method `_verify_non_beam_search`. -/
def SamplingParams.verify_non_beam_search (p : SamplingParams) : Except PyError Unit :=
  if p.early_stopping ≠ .ofBool false then
    .error (.valueError
      "early_stopping is not effective and must be False when not using beam search")
  else if p.length_penalty < 1 - SAMPLING_EPS ∨ 1 + SAMPLING_EPS < p.length_penalty then
    .error (.valueError
      "length_penalty is not effective and must be the default value of 1.0 when not using beam search")
  else .ok ()

/-- The method `_verify_greedy_sampling`. -/
def SamplingParams.verify_greedy_sampling (p : SamplingParams) : Except PyError Unit :=
  if p.actual_best_of > 1 then
    .error (.valueError "best_of must be 1 when using greedy sampling")
  else if p.top_p < 1 - SAMPLING_EPS then
    .error (.valueError "top_p must be 1 when using greedy sampling")
  else if p.top_k ≠ -1 then
    .error (.valueError "top_k must be -1 when using greedy sampling")
  else .ok ()

/-- The method `__post_init__`: the beam-search assert, then the argument
checks, then the non-beam checks, then the greedy checks when the
temperature is below the sampling epsilon; the first raised error aborts
the rest. -/
def SamplingParams.post_init (p : SamplingParams) : Except PyError Unit :=
  if p.use_beam_search then .error (.assertionError "beam search is disabled")
  else
    match p.verify_args with
    | .error e => .error e
    | .ok _ =>
        match p.verify_non_beam_search with
        | .error e => .error e
        | .ok _ =>
            if p.temperature < SAMPLING_EPS then p.verify_greedy_sampling
            else .ok ()

/-- Constructing a SamplingParams value: msgspec builds the record from the
arguments, then `__post_init__` validates it; a raised error propagates to
the caller and no value is produced. -/
def SamplingParams.make (p : SamplingParams) : Except PyError SamplingParams :=
  (p.post_init).map (fun _ => p)

end Sampling

namespace Engine

/-- The field record of dataclass EngineArgs (vllm/engine/arg_utils.py) with
the source's defaults; floats are modelled as rationals, Python ints as
integers.  The class attribute `lora_dtype = 'auto'` carries no annotation
in the source and is therefore not a dataclass field; it is omitted here. -/
structure EngineArgs where
  model : String
  tokenizer : Option String := none
  tokenizer_mode : String := "auto"
  trust_remote_code : Bool := false
  download_dir : Option String := none
  load_format : String := "auto"
  dtype : String := "auto"
  seed : Int := 0
  max_model_len : Option Int := none
  worker_use_ray : Bool := false
  pipeline_parallel_size : Int := 1
  tensor_parallel_size : Int := 1
  block_size : Int := 16
  swap_space : Int := 4
  gpu_memory_utilization : ℚ := 90 / 100
  max_num_batched_tokens : Option Int := none
  max_num_seqs : Int := 256
  disable_log_stats : Bool := false
  revision : Option String := none
  tokenizer_revision : Option String := none
  quantization : Option String := none
  load_s3_path : Option String := none
  load_s3_region : String := "us-west-2"
  enable_cuda_graph : Bool := false
  cuda_graph_max_context_len : Int := 5000
  cuda_graph_cache_size : Int := 10
  disable_shared_memory : Bool := false
  num_tokenizer_actors : Int := 0
  speculative_model : Option String := none
  speculative_model_uses_tp_1 : Bool := false
  num_speculative_tokens : Option Int := none
  target_model_input_padding_size : Option Int := none
  draft_model_input_padding_size : Option Int := none
  enable_lora : Bool := false
  max_loras : Int := 1
  max_lora_rank : Int := 16
  lora_extra_vocab_size : Int := 256
  max_cpu_loras : Int := -1
  flash_style : Bool := false
  max_chunked_prefill_len : Int := -1
  max_num_prompt_seqs : Int := 256
  input_padding_size : Int := 8
  ray_workers_use_nsight : Bool := false
deriving DecidableEq, Repr

/-- The method `EngineArgs.__post_init__`: when no tokenizer was supplied,
the model string is used as the tokenizer. -/
def EngineArgs.post_init (a : EngineArgs) : EngineArgs :=
  if a.tokenizer = none then { a with tokenizer := some a.model } else a

/-- The field record of dataclass AsyncEngineArgs (vllm/engine/arg_utils.py):
it extends EngineArgs with three fields and inherits `__post_init__`. -/
structure AsyncEngineArgs extends EngineArgs where
  engine_use_ray : Bool := false
  disable_log_requests : Bool := false
  max_log_len : Option Int := none
deriving DecidableEq, Repr

/-- The inherited `__post_init__` of AsyncEngineArgs acts on the EngineArgs
part of the record. -/
def AsyncEngineArgs.post_init (a : AsyncEngineArgs) : AsyncEngineArgs :=
  { a with toEngineArgs := a.toEngineArgs.post_init }

end Engine

namespace Tracker

theorem lookupA_append_of_none {a b : List (Id × OutputStream)} {id : Id}
    (h : lookupA a id = none) : lookupA (a ++ b) id = lookupA b id := by
  induction a with
  | nil => simp [lookupA]
  | cons e rest ih =>
      obtain ⟨k, v⟩ := e
      by_cases hk : k = id
      · simp [lookupA, hk] at h
      · simp only [lookupA, List.cons_append, if_neg hk] at h ⊢
        exact ih h

theorem lookupA_updateA_self {a : List (Id × OutputStream)} {id : Id}
    {s0 : OutputStream} (s : OutputStream) (h : lookupA a id = some s0) :
    lookupA (updateA a id s) id = some s := by
  induction a with
  | nil => simp [lookupA] at h
  | cons e rest ih =>
      obtain ⟨k, v⟩ := e
      by_cases hk : k = id
      · simp [lookupA, updateA, hk]
      · simp only [lookupA, updateA, if_neg hk] at h ⊢
        exact ih h

theorem lookupA_updateA_ne {a : List (Id × OutputStream)} {id j : Id}
    (s : OutputStream) (h : j ≠ id) :
    lookupA (updateA a id s) j = lookupA a j := by
  induction a with
  | nil => rfl
  | cons e rest ih =>
      obtain ⟨k, v⟩ := e
      by_cases hk : k = id
      · have hij : ¬id = j := fun hh => h hh.symm
        simp [lookupA, updateA, hk, hij]
      · by_cases hj : k = j
        · simp [lookupA, updateA, hk, hj, h]
        · simp only [lookupA, updateA, if_neg hk, if_neg hj]
          exact ih

theorem mem_updateA {a : List (Id × OutputStream)} {id : Id}
    {s : OutputStream} {e : Id × OutputStream} (h : e ∈ updateA a id s) :
    e ∈ a ∨ e = (id, s) := by
  induction a with
  | nil => simp [updateA] at h
  | cons f rest ih =>
      obtain ⟨k, v⟩ := f
      by_cases hk : k = id
      · simp only [updateA, if_pos hk, List.mem_cons] at h
        rcases h with h1 | h1
        · right
          rw [h1, hk]
        · left
          exact List.mem_cons_of_mem _ h1
      · simp only [updateA, if_neg hk, List.mem_cons] at h
        rcases h with h1 | h1
        · left
          rw [h1]
          exact List.mem_cons_self _ _
        · rcases ih h1 with h2 | h2
          · left
            exact List.mem_cons_of_mem _ h2
          · right
            exact h2

theorem run_nil (t : RequestTracker) : RequestTracker.run t [] = t := rfl

theorem run_cons (t : RequestTracker) (op : Op) (ops : List Op) :
    RequestTracker.run t (op :: ops) = RequestTracker.run (t.step op) ops := rfl

theorem run_append (t : RequestTracker) (l1 l2 : List Op) :
    RequestTracker.run t (l1 ++ l2) = RequestTracker.run (RequestTracker.run t l1) l2 :=
  List.foldl_append _ _ _ _

/-- Claim C3: a submit of an identifier that is already active fails with
the DuplicateRequest condition and mutates no tracker state. -/
theorem claim_C3 (t : RequestTracker) (id : Id) (p : Params) (s : OutputStream)
    (h : lookupA t.active id = some s) :
    t.submit id p = .error .DuplicateRequest ∧
      RequestTracker.step t (.submit id p) = t := by
  constructor
  · simp [RequestTracker.submit, h]
  · simp [RequestTracker.step, RequestTracker.submit, h]

theorem claim_C3_witness :
    lookupA (RequestTracker.run RequestTracker.init [Op.submit "x" 0]).active "x" =
        some OutputStream.empty ∧
      (RequestTracker.run RequestTracker.init [Op.submit "x" 0]).submit "x" 1 =
        .error .DuplicateRequest ∧
      RequestTracker.step (RequestTracker.run RequestTracker.init [Op.submit "x" 0])
          (.submit "x" 1) =
        RequestTracker.run RequestTracker.init [Op.submit "x" 0] := by
  refine ⟨by decide, ?_⟩
  exact claim_C3 (RequestTracker.run RequestTracker.init [Op.submit "x" 0]) "x" 1
    OutputStream.empty (by decide)

theorem cancel_of_none {t : RequestTracker} {id : Id}
    (h : lookupA t.active id = none) : t.cancel id = t := by
  simp [RequestTracker.cancel, h]

theorem cancel_of_finished {t : RequestTracker} {id : Id} {s : OutputStream}
    (h : lookupA t.active id = some s) (hf : s.finished = true) :
    t.cancel id = t := by
  simp [RequestTracker.cancel, h, hf]

theorem cancel_of_unfinished {t : RequestTracker} {id : Id} {s : OutputStream}
    (h : lookupA t.active id = some s) (hf : s.finished = false) :
    t.cancel id =
      { active := updateA t.active id
          { s with finished := true, cancelled := true },
        pendingNew := t.pendingNew.filter (fun r => r.id != id),
        pendingFinished :=
          if id ∈ t.pendingFinished then t.pendingFinished
          else t.pendingFinished ++ [id],
        wake := true } := by
  simp [RequestTracker.cancel, h, hf]

/-- Claim C6: cancel is idempotent, and cancelling an unknown or already
finished identifier is a no-op rather than an error. -/
theorem claim_C6 (t : RequestTracker) (id : Id) :
    (t.cancel id).cancel id = t.cancel id ∧
      (lookupA t.active id = none → t.cancel id = t) ∧
      (∀ s, lookupA t.active id = some s → s.finished = true → t.cancel id = t) := by
  refine ⟨?_, fun h => cancel_of_none h, fun s h hf => cancel_of_finished h hf⟩
  cases h : lookupA t.active id with
  | none =>
      have hno := cancel_of_none h
      simp [hno]
  | some s =>
      by_cases hf : s.finished = true
      · have hno := cancel_of_finished h hf
        simp [hno]
      · have hf2 : s.finished = false := by
          simpa using hf
        rw [cancel_of_unfinished h hf2]
        exact cancel_of_finished
          (lookupA_updateA_self { s with finished := true, cancelled := true } h) rfl

theorem claim_C6_witness :
    ((RequestTracker.init.cancel "a").cancel "a" = RequestTracker.init.cancel "a" ∧
      (lookupA RequestTracker.init.active "a" = none →
        RequestTracker.init.cancel "a" = RequestTracker.init) ∧
      (∀ s, lookupA RequestTracker.init.active "a" = some s → s.finished = true →
        RequestTracker.init.cancel "a" = RequestTracker.init)) :=
  claim_C6 RequestTracker.init "a"

/-- Claim C7: a deliverResult aimed at a request whose stream is already
finished is silently dropped: the tracker state, hence the stream contents,
the terminal flags, pendingFinished and wake, are all unchanged. -/
theorem claim_C7 (t : RequestTracker) (id : Id) (r : Result) (s : OutputStream)
    (h : lookupA t.active id = some s) (hf : s.finished = true) :
    t.deliverResult id r = t := by
  simp [RequestTracker.deliverResult, h, hf]

theorem claim_C7_witness :
    lookupA (RequestTracker.init.cancel "b").active "b" = none ∧
      (RequestTracker.run RequestTracker.init [Op.submit "b" 0, Op.cancel "b"]).deliverResult
          "b" { payload := 3, isFinal := true } =
        RequestTracker.run RequestTracker.init [Op.submit "b" 0, Op.cancel "b"] := by
  refine ⟨by decide, ?_⟩
  exact claim_C7 (RequestTracker.run RequestTracker.init [Op.submit "b" 0, Op.cancel "b"])
    "b" { payload := 3, isFinal := true }
    { results := [], finished := true, cancelled := true } (by decide) rfl

/-- Claim C1 (Scenario C): starting from a tracker with nothing pending, a
submit followed by a cancel with no intervening drain makes the next drain
return no new admissions and exactly that identifier as finished, and the
request's stream reports finished already after the cancel, before the
drain runs. -/
theorem claim_C1 (t : RequestTracker) (id : Id) (p : Params)
    (hnew : t.pendingNew = []) (hfin : t.pendingFinished = [])
    (hact : lookupA t.active id = none) :
    ∃ t1 s, t.submit id p = .ok (t1, s) ∧
      ((t1.cancel id).drain).1 = { newAdmissions := [], finishedIds := [id] } ∧
      (∃ s2, lookupA (t1.cancel id).active id = some s2 ∧ s2.finished = true) := by
  refine ⟨{ active := t.active ++ [(id, OutputStream.empty)],
            pendingNew := t.pendingNew ++ [{ id := id, params := p }],
            pendingFinished := t.pendingFinished,
            wake := true }, OutputStream.empty, ?_, ?_, ?_⟩
  · simp [RequestTracker.submit, hact]
  · have ht1 : lookupA (t.active ++ [(id, OutputStream.empty)]) id =
        some OutputStream.empty := by
      rw [lookupA_append_of_none hact]
      simp [lookupA]
    rw [cancel_of_unfinished ht1 rfl]
    simp [RequestTracker.drain, hnew, hfin, OutputStream.empty]
  · have ht1 : lookupA (t.active ++ [(id, OutputStream.empty)]) id =
        some OutputStream.empty := by
      rw [lookupA_append_of_none hact]
      simp [lookupA]
    rw [cancel_of_unfinished ht1 rfl]
    exact ⟨{ OutputStream.empty with finished := true, cancelled := true },
      lookupA_updateA_self _ ht1, rfl⟩

theorem claim_C1_witness :
    RequestTracker.init.pendingNew = [] ∧
      RequestTracker.init.pendingFinished = [] ∧
      lookupA RequestTracker.init.active "4" = none ∧
      (∃ t1 s, RequestTracker.init.submit "4" 0 = .ok (t1, s) ∧
        ((t1.cancel "4").drain).1 = { newAdmissions := [], finishedIds := ["4"] } ∧
        (∃ s2, lookupA (t1.cancel "4").active "4" = some s2 ∧ s2.finished = true)) :=
  ⟨rfl, rfl, rfl, claim_C1 RequestTracker.init "4" 0 rfl rfl rfl⟩

theorem run_submits_pendingNew (l : List (Id × Params)) :
    ∀ t : RequestTracker, (l.map Prod.fst).Nodup →
      (∀ q ∈ l, lookupA t.active q.1 = none) →
      (RequestTracker.run t (l.map (fun q => Op.submit q.1 q.2))).pendingNew =
        t.pendingNew ++ l.map (fun q => { id := q.1, params := q.2 }) := by
  induction l with
  | nil =>
      intro t _ _
      simp [RequestTracker.run]
  | cons q rest ih =>
      intro t hnodup hfresh
      obtain ⟨i, p⟩ := q
      have hfr : lookupA t.active i = none := hfresh (i, p) (by simp)
      have hstep : t.step (Op.submit i p) =
          { active := t.active ++ [(i, OutputStream.empty)],
            pendingNew := t.pendingNew ++ [{ id := i, params := p }],
            pendingFinished := t.pendingFinished,
            wake := true } := by
        simp [RequestTracker.step, RequestTracker.submit, hfr]
      rw [List.map_cons, List.nodup_cons] at hnodup
      have hnotin : i ∉ rest.map Prod.fst := hnodup.1
      have hfresh2 : ∀ q2 ∈ rest,
          lookupA ({ active := t.active ++ [(i, OutputStream.empty)],
                     pendingNew := t.pendingNew ++ [{ id := i, params := p }],
                     pendingFinished := t.pendingFinished,
                     wake := true } : RequestTracker).active q2.1 = none := by
        intro q2 hq2
        have hne : ¬i = q2.1 := by
          intro hh
          exact hnotin (hh ▸ List.mem_map_of_mem Prod.fst hq2)
        show lookupA (t.active ++ [(i, OutputStream.empty)]) q2.1 = none
        rw [lookupA_append_of_none (hfresh q2 (List.mem_cons_of_mem _ hq2))]
        simp [lookupA, hne]
      have hrun := ih _ hnodup.2 hfresh2
      calc (RequestTracker.run t (((i, p) :: rest).map (fun q => Op.submit q.1 q.2))).pendingNew
      _ = (RequestTracker.run (t.step (Op.submit i p))
            (rest.map (fun q => Op.submit q.1 q.2))).pendingNew := rfl
      _ = t.pendingNew ++ ((i, p) :: rest).map (fun q => { id := q.1, params := q.2 }) := by
            rw [hstep]
            rw [hrun]
            simp

/-- Claim C5 (Scenario B): submitting a batch of fresh, distinct requests
with no intervening drain makes the next drain report exactly their
admission records, in submission order. -/
theorem claim_C5 (t : RequestTracker) (l : List (Id × Params))
    (hnodup : (l.map Prod.fst).Nodup)
    (hfresh : ∀ q ∈ l, lookupA t.active q.1 = none)
    (hclean : t.pendingNew = []) :
    ((RequestTracker.run t (l.map (fun q => Op.submit q.1 q.2))).drain).1.newAdmissions =
      l.map (fun q => { id := q.1, params := q.2 }) := by
  have h := run_submits_pendingNew l t hnodup hfresh
  simp [RequestTracker.drain]
  rw [h, hclean]
  simp

theorem claim_C5_witness :
    ([("2", (0 : Params)), ("3", 1)].map Prod.fst).Nodup ∧
      (∀ q ∈ [("2", (0 : Params)), ("3", 1)], lookupA RequestTracker.init.active q.1 = none) ∧
      RequestTracker.init.pendingNew = [] ∧
      ((RequestTracker.run RequestTracker.init
          ([("2", (0 : Params)), ("3", 1)].map (fun q => Op.submit q.1 q.2))).drain).1.newAdmissions =
        [{ id := "2", params := 0 }, { id := "3", params := 1 }] :=
  ⟨by decide, by decide, rfl,
    claim_C5 RequestTracker.init [("2", 0), ("3", 1)] (by decide) (by decide) rfl⟩

theorem deliverResult_of_none {t : RequestTracker} {id : Id} (res : Result)
    (h : lookupA t.active id = none) : t.deliverResult id res = t := by
  simp [RequestTracker.deliverResult, h]

theorem deliverResult_of_finished {t : RequestTracker} {id : Id} {s : OutputStream}
    (res : Result) (h : lookupA t.active id = some s) (hf : s.finished = true) :
    t.deliverResult id res = t := by
  simp [RequestTracker.deliverResult, h, hf]

theorem deliverResult_of_unfinished {t : RequestTracker} {id : Id} {s : OutputStream}
    (res : Result) (h : lookupA t.active id = some s) (hf : s.finished = false) :
    t.deliverResult id res =
      { active := updateA t.active id
          { s with results := s.results ++ [res], finished := res.isFinal },
        pendingNew := t.pendingNew,
        pendingFinished :=
          if res.isFinal then
            (if id ∈ t.pendingFinished then t.pendingFinished
             else t.pendingFinished ++ [id])
          else t.pendingFinished,
        wake := res.isFinal || t.wake } := by
  simp [RequestTracker.deliverResult, h, hf]

theorem wakeInv_step (t : RequestTracker) (op : Op)
    (h : t.wake = true ↔ (t.pendingNew ≠ [] ∨ t.pendingFinished ≠ [])) :
    (t.step op).wake = true ↔
      ((t.step op).pendingNew ≠ [] ∨ (t.step op).pendingFinished ≠ []) := by
  cases op with
  | submit id p =>
      cases hl : lookupA t.active id with
      | some s =>
          have hst : t.step (Op.submit id p) = t := by
            simp [RequestTracker.step, RequestTracker.submit, hl]
          rw [hst]
          exact h
      | none =>
          have hst : t.step (Op.submit id p) =
              { active := t.active ++ [(id, OutputStream.empty)],
                pendingNew := t.pendingNew ++ [{ id := id, params := p }],
                pendingFinished := t.pendingFinished,
                wake := true } := by
            simp [RequestTracker.step, RequestTracker.submit, hl]
          rw [hst]
          refine iff_of_true rfl (Or.inl ?_)
          simp
  | cancel id =>
      cases hl : lookupA t.active id with
      | none =>
          rw [show t.step (Op.cancel id) = t.cancel id from rfl, cancel_of_none hl]
          exact h
      | some s =>
          by_cases hf : s.finished = true
          · rw [show t.step (Op.cancel id) = t.cancel id from rfl,
              cancel_of_finished hl hf]
            exact h
          · have hf2 : s.finished = false := by
              simpa using hf
            rw [show t.step (Op.cancel id) = t.cancel id from rfl,
              cancel_of_unfinished hl hf2]
            refine iff_of_true rfl (Or.inr ?_)
            by_cases hm : id ∈ t.pendingFinished
            · simp only [if_pos hm]
              exact List.ne_nil_of_mem hm
            · simp [hm]
  | deliver id r =>
      cases hl : lookupA t.active id with
      | none =>
          rw [show t.step (Op.deliver id r) = t.deliverResult id r from rfl,
            deliverResult_of_none r hl]
          exact h
      | some s =>
          by_cases hf : s.finished = true
          · rw [show t.step (Op.deliver id r) = t.deliverResult id r from rfl,
              deliverResult_of_finished r hl hf]
            exact h
          · have hf2 : s.finished = false := by
              simpa using hf
            rw [show t.step (Op.deliver id r) = t.deliverResult id r from rfl,
              deliverResult_of_unfinished r hl hf2]
            cases hrf : r.isFinal with
            | true =>
                simp only [hrf]
                refine iff_of_true rfl (Or.inr ?_)
                by_cases hm : id ∈ t.pendingFinished
                · simp only [if_pos hm, if_pos trivial]
                  simpa [hm] using List.ne_nil_of_mem hm
                · simp [hm]
            | false =>
                simpa [hrf] using h
  | drain =>
      rw [show t.step Op.drain = (t.drain).2 from rfl]
      simp [RequestTracker.drain]

theorem wakeInv_run (ops : List Op) :
    ∀ t : RequestTracker,
      (t.wake = true ↔ (t.pendingNew ≠ [] ∨ t.pendingFinished ≠ [])) →
      ((RequestTracker.run t ops).wake = true ↔
        ((RequestTracker.run t ops).pendingNew ≠ [] ∨
         (RequestTracker.run t ops).pendingFinished ≠ [])) := by
  induction ops with
  | nil =>
      intro t h
      exact h
  | cons op rest ih =>
      intro t h
      exact ih _ (wakeInv_step t op h)

/-- Claim C4 is false as stated: a cancel of an unknown identifier is a
no-op, so the wake signal is not set by every cancel call; on the initial
tracker a cancel leaves wake false. -/
theorem claim_C4_counterexample :
    ¬((RequestTracker.init.cancel "x").wake = true) := by decide

/-- Claim C4 (amended): over every state reachable from the initial
tracker, wake is true iff pendingNew or pendingFinished is non-empty;
wake is true immediately after every successful submit, after every cancel
that finds the identifier active and unfinished, and after every
deliverResult with a final result that is not dropped; and wake is false
immediately after every drain (which always clears both pending sets in
the atomic model). -/
theorem claim_C4_amended :
    (∀ ops : List Op,
        (RequestTracker.run RequestTracker.init ops).wake = true ↔
          ((RequestTracker.run RequestTracker.init ops).pendingNew ≠ [] ∨
           (RequestTracker.run RequestTracker.init ops).pendingFinished ≠ [])) ∧
    (∀ (t t1 : RequestTracker) (id : Id) (p : Params) (s : OutputStream),
        t.submit id p = .ok (t1, s) → t1.wake = true) ∧
    (∀ (t : RequestTracker) (id : Id) (s : OutputStream),
        lookupA t.active id = some s → s.finished = false →
          (t.cancel id).wake = true) ∧
    (∀ (t : RequestTracker) (id : Id) (r : Result) (s : OutputStream),
        lookupA t.active id = some s → s.finished = false → r.isFinal = true →
          (t.deliverResult id r).wake = true) ∧
    (∀ t : RequestTracker, ((t.drain).2).wake = false) := by
  refine ⟨?_, ?_, ?_, ?_, fun t => rfl⟩
  · intro ops
    exact wakeInv_run ops RequestTracker.init (by simp [RequestTracker.init])
  · intro t t1 id p s h
    cases hl : lookupA t.active id with
    | some s2 => simp [RequestTracker.submit, hl] at h
    | none =>
        simp only [RequestTracker.submit, hl, Except.ok.injEq, Prod.mk.injEq] at h
        rw [← h.1]
  · intro t id s hl hf
    rw [cancel_of_unfinished hl hf]
  · intro t id r s hl hf hrf
    rw [deliverResult_of_unfinished r hl hf, hrf]
    rfl

theorem claim_C4_amended_witness :
    (∃ t1 s, RequestTracker.init.submit "w" 0 = .ok (t1, s) ∧ t1.wake = true) ∧
      ((RequestTracker.run RequestTracker.init [Op.submit "w" 0]).cancel "w").wake = true ∧
      ((RequestTracker.run RequestTracker.init
          [Op.submit "w" 0]).deliverResult "w" { payload := 5, isFinal := true }).wake = true ∧
      ((RequestTracker.init.drain).2).wake = false := by
  refine ⟨⟨_, _, rfl, claim_C4_amended.2.1 RequestTracker.init _ "w" 0 _ rfl⟩, ?_, ?_, ?_⟩
  · exact claim_C4_amended.2.2.1 _ "w" OutputStream.empty (by decide) rfl
  · exact claim_C4_amended.2.2.2.1 _ "w" { payload := 5, isFinal := true }
      OutputStream.empty (by decide) rfl rfl
  · exact claim_C4_amended.2.2.2.2 RequestTracker.init

end Tracker

namespace Sampling

/-- Claim C8: the assert in `__post_init__` rejects every argument
assignment with use_beam_search set, with the AssertionError message
"beam search is disabled", so no successfully constructed SamplingParams
has use_beam_search set and sampling_type never returns BEAM. -/
theorem claim_C8 :
    (∀ p : SamplingParams, p.use_beam_search = true →
        p.make = .error (.assertionError "beam search is disabled")) ∧
    (∀ p q : SamplingParams, p.make = .ok q →
        q.use_beam_search = false ∧ q.sampling_type ≠ SamplingType.BEAM) := by
  constructor
  · intro p h
    simp [SamplingParams.make, SamplingParams.post_init, h, Except.map]
  · intro p q h
    cases hpi : p.post_init with
    | error e =>
        rw [SamplingParams.make, hpi] at h
        simp [Except.map] at h
    | ok u =>
        rw [SamplingParams.make, hpi] at h
        simp [Except.map] at h
        subst h
        by_cases hb : p.use_beam_search = true
        · rw [SamplingParams.post_init, if_pos hb] at hpi
          cases hpi
        · have hb2 : p.use_beam_search = false := by
            simpa using hb
          refine ⟨hb2, ?_⟩
          by_cases ht : p.temperature < SAMPLING_EPS
          · simp [SamplingParams.sampling_type, hb2, ht]
          · simp [SamplingParams.sampling_type, hb2, ht]

theorem claim_C8_witness :
    (({ use_beam_search := true } : SamplingParams).use_beam_search = true ∧
      ({ use_beam_search := true } : SamplingParams).make =
        .error (.assertionError "beam search is disabled")) ∧
    (({ } : SamplingParams).make = .ok { } ∧
      ({ } : SamplingParams).use_beam_search = false ∧
      ({ } : SamplingParams).sampling_type ≠ SamplingType.BEAM) := by
  have hpi : ({ } : SamplingParams).post_init = .ok () := by
    simp [SamplingParams.post_init, SamplingParams.verify_args,
      SamplingParams.verify_non_beam_search, SamplingParams.actual_best_of,
      SAMPLING_EPS]
    norm_num
  have hmk : ({ } : SamplingParams).make = .ok { } := by
    simp [SamplingParams.make, hpi, Except.map]
  exact ⟨⟨rfl, claim_C8.1 { use_beam_search := true } rfl⟩,
    ⟨hmk, claim_C8.2 { } { } hmk⟩⟩

theorem verify_args_facts {p : SamplingParams} {u : Unit}
    (h : p.verify_args = .ok u) : ¬p.n < 1 ∧ ¬p.actual_best_of < p.n := by
  rw [SamplingParams.verify_args] at h
  by_cases h1 : p.n < 1
  · rw [if_pos h1] at h
    cases h
  · rw [if_neg h1] at h
    by_cases h2 : p.actual_best_of < p.n
    · rw [if_pos h2] at h
      cases h
    · exact ⟨h1, h2⟩

theorem verify_greedy_facts {p : SamplingParams} {u : Unit}
    (h : p.verify_greedy_sampling = .ok u) :
    ¬p.actual_best_of > 1 ∧ ¬p.top_p < 1 - SAMPLING_EPS ∧ p.top_k = -1 := by
  rw [SamplingParams.verify_greedy_sampling] at h
  by_cases g1 : p.actual_best_of > 1
  · rw [if_pos g1] at h
    cases h
  · rw [if_neg g1] at h
    by_cases g2 : p.top_p < 1 - SAMPLING_EPS
    · rw [if_pos g2] at h
      cases h
    · rw [if_neg g2] at h
      by_cases g3 : p.top_k ≠ -1
      · rw [if_pos g3] at h
        cases h
      · exact ⟨g1, g2, not_not.mp g3⟩

theorem post_init_parts {p : SamplingParams} {u : Unit}
    (h : p.post_init = .ok u) :
    p.use_beam_search = false ∧ (∃ u2, p.verify_args = .ok u2) ∧
      (p.temperature < SAMPLING_EPS → ∃ u4, p.verify_greedy_sampling = .ok u4) := by
  rw [SamplingParams.post_init] at h
  by_cases hb : p.use_beam_search = true
  · rw [if_pos hb] at h
    cases h
  · rw [if_neg hb] at h
    cases hva : p.verify_args with
    | error e =>
        rw [hva] at h
        cases h
    | ok u2 =>
        rw [hva] at h
        dsimp only at h
        cases hvn : p.verify_non_beam_search with
        | error e =>
            rw [hvn] at h
            cases h
        | ok u3 =>
            rw [hvn] at h
            dsimp only at h
            refine ⟨by simpa using hb, ⟨u2, rfl⟩, ?_⟩
            intro ht
            rw [if_pos ht] at h
            exact ⟨u, h⟩

/-- Claim C9: every SamplingParams whose construction succeeds satisfies
1 <= n <= actual_best_of, and in the greedy regime (temperature below the
sampling epsilon) actual_best_of = 1, top_p >= 1 - epsilon and
top_k = -1. -/
theorem claim_C9 (p q : SamplingParams) (h : p.make = .ok q) :
    1 ≤ q.n ∧ q.n ≤ q.actual_best_of ∧
      (q.temperature < SAMPLING_EPS →
        q.actual_best_of = 1 ∧ 1 - SAMPLING_EPS ≤ q.top_p ∧ q.top_k = -1) := by
  cases hpi : p.post_init with
  | error e =>
      rw [SamplingParams.make, hpi] at h
      simp [Except.map] at h
  | ok u =>
      rw [SamplingParams.make, hpi] at h
      simp [Except.map] at h
      subst h
      obtain ⟨hb, ⟨u2, hva⟩, hgr⟩ := post_init_parts hpi
      obtain ⟨h1, h2⟩ := verify_args_facts hva
      refine ⟨by omega, by omega, ?_⟩
      intro ht
      obtain ⟨u4, hg⟩ := hgr ht
      obtain ⟨g1, g2, g3⟩ := verify_greedy_facts hg
      exact ⟨by omega, not_lt.mp g2, g3⟩

theorem claim_C9_witness :
    ({ temperature := 0 } : SamplingParams).make = .ok { temperature := 0 } ∧
      1 ≤ ({ temperature := 0 } : SamplingParams).n ∧
      ({ temperature := 0 } : SamplingParams).n ≤
        ({ temperature := 0 } : SamplingParams).actual_best_of ∧
      (({ temperature := 0 } : SamplingParams).temperature < SAMPLING_EPS →
        ({ temperature := 0 } : SamplingParams).actual_best_of = 1 ∧
        1 - SAMPLING_EPS ≤ ({ temperature := 0 } : SamplingParams).top_p ∧
        ({ temperature := 0 } : SamplingParams).top_k = -1) := by
  have hpi : ({ temperature := 0 } : SamplingParams).post_init = .ok () := by
    simp [SamplingParams.post_init, SamplingParams.verify_args,
      SamplingParams.verify_non_beam_search, SamplingParams.verify_greedy_sampling,
      SamplingParams.actual_best_of, SAMPLING_EPS]
    norm_num
  have hmk : ({ temperature := 0 } : SamplingParams).make = .ok { temperature := 0 } := by
    simp [SamplingParams.make, hpi, Except.map]
  exact ⟨hmk, claim_C9 { temperature := 0 } { temperature := 0 } hmk⟩

end Sampling

namespace Engine

/-- Claim C10: the post-init step of EngineArgs (and of AsyncEngineArgs,
which inherits it) replaces an absent tokenizer by the model string, so
after construction the tokenizer is never absent and equals the model
whenever it was not explicitly supplied. -/
theorem claim_C10 (a : EngineArgs) (b : AsyncEngineArgs) :
    (a.tokenizer = none → (a.post_init).tokenizer = some a.model) ∧
      (a.post_init).tokenizer ≠ none ∧
      (b.tokenizer = none → (b.post_init).tokenizer = some b.model) ∧
      (b.post_init).tokenizer ≠ none := by
  refine ⟨?_, ?_, ?_, ?_⟩
  · intro h
    simp [EngineArgs.post_init, h]
  · by_cases h : a.tokenizer = none
    · simp [EngineArgs.post_init, h]
    · simp [EngineArgs.post_init, h]
  · intro h
    show (b.toEngineArgs.post_init).tokenizer = some b.toEngineArgs.model
    simp [EngineArgs.post_init, h]
  · show (b.toEngineArgs.post_init).tokenizer ≠ none
    by_cases h : b.toEngineArgs.tokenizer = none
    · simp [EngineArgs.post_init, h]
    · simp [EngineArgs.post_init, h]

theorem claim_C10_witness :
    ({ model := "facebook/opt-125m" } : EngineArgs).tokenizer = none ∧
      (({ model := "facebook/opt-125m" } : EngineArgs).post_init).tokenizer =
        some ({ model := "facebook/opt-125m" } : EngineArgs).model ∧
      (({ model := "facebook/opt-125m" } : EngineArgs).post_init).tokenizer ≠ none ∧
      ({ model := "m2" } : AsyncEngineArgs).tokenizer = none ∧
      (({ model := "m2" } : AsyncEngineArgs).post_init).tokenizer =
        some ({ model := "m2" } : AsyncEngineArgs).model ∧
      (({ model := "m2" } : AsyncEngineArgs).post_init).tokenizer ≠ none := by
  have h := claim_C10 { model := "facebook/opt-125m" } { model := "m2" }
  exact ⟨rfl, h.1 rfl, h.2.1, rfl, h.2.2.1 rfl, h.2.2.2⟩

end Engine

namespace Tracker

theorem lookupA_append_of_some {a b : List (Id × OutputStream)} {id : Id}
    {s : OutputStream} (h : lookupA a id = some s) :
    lookupA (a ++ b) id = some s := by
  induction a with
  | nil => simp [lookupA] at h
  | cons e rest ih =>
      obtain ⟨k, v⟩ := e
      by_cases hk : k = id
      · simp only [lookupA, List.cons_append, if_pos hk] at h ⊢
        exact h
      · simp only [lookupA, List.cons_append, if_neg hk] at h ⊢
        exact ih h

theorem lookupA_none_not_mem {a : List (Id × OutputStream)} {id : Id}
    (h : lookupA a id = none) : id ∉ a.map Prod.fst := by
  induction a with
  | nil => simp
  | cons e rest ih =>
      obtain ⟨k, v⟩ := e
      by_cases hk : k = id
      · simp [lookupA, hk] at h
      · simp only [lookupA, if_neg hk] at h
        simp only [List.map_cons, List.mem_cons]
        rintro (h1 | h1)
        · exact hk h1.symm
        · exact ih h h1

theorem lookupA_some_mem {a : List (Id × OutputStream)} {id : Id}
    {s : OutputStream} (h : lookupA a id = some s) : (id, s) ∈ a := by
  induction a with
  | nil => simp [lookupA] at h
  | cons e rest ih =>
      obtain ⟨k, v⟩ := e
      by_cases hk : k = id
      · simp only [lookupA, if_pos hk] at h
        subst hk
        injection h with h2
        subst h2
        exact List.mem_cons_self _ _
      · simp only [lookupA, if_neg hk] at h
        exact List.mem_cons_of_mem _ (ih h)

theorem keys_updateA (a : List (Id × OutputStream)) (id : Id) (s : OutputStream) :
    (updateA a id s).map Prod.fst = a.map Prod.fst := by
  induction a with
  | nil => rfl
  | cons e rest ih =>
      obtain ⟨k, v⟩ := e
      by_cases hk : k = id
      · simp [updateA, hk]
      · simp [updateA, hk, ih]

theorem mem_updateA_nodup {a : List (Id × OutputStream)} {id : Id}
    {s : OutputStream} {e : Id × OutputStream}
    (hnd : (a.map Prod.fst).Nodup) (h : e ∈ updateA a id s) :
    (e ∈ a ∧ e.1 ≠ id) ∨ e = (id, s) := by
  induction a with
  | nil => simp [updateA] at h
  | cons f rest ih =>
      obtain ⟨k, v⟩ := f
      simp only [List.map_cons, List.nodup_cons] at hnd
      by_cases hk : k = id
      · simp only [updateA, if_pos hk, List.mem_cons] at h
        rcases h with h1 | h1
        · right
          rw [h1, hk]
        · left
          refine ⟨List.mem_cons_of_mem _ h1, ?_⟩
          intro hh
          rw [← hk] at hh
          exact hnd.1 (hh ▸ List.mem_map_of_mem Prod.fst h1)
      · simp only [updateA, if_neg hk, List.mem_cons] at h
        rcases h with h1 | h1
        · left
          refine ⟨by simp [h1], ?_⟩
          rw [h1]
          exact hk
        · rcases ih hnd.2 h1 with ⟨h2, h3⟩ | h2
          · exact Or.inl ⟨List.mem_cons_of_mem _ h2, h3⟩
          · exact Or.inr h2

theorem mem_admIds_filter_ne {l : List AdmissionRecord} {j i : Id}
    (h : j ∈ admIds l) (hne : j ≠ i) :
    j ∈ admIds (l.filter (fun r => r.id != i)) := by
  simp only [admIds, List.mem_map] at h ⊢
  obtain ⟨r, hr, hrid⟩ := h
  refine ⟨r, List.mem_filter.mpr ⟨hr, ?_⟩, hrid⟩
  simp [bne_iff_ne, hrid, hne]

theorem drainResults_append (l1 l2 : List Op) :
    ∀ t : RequestTracker, drainResults t (l1 ++ l2) =
      drainResults t l1 ++ drainResults (RequestTracker.run t l1) l2 := by
  induction l1 with
  | nil =>
      intro t
      simp [drainResults, RequestTracker.run]
  | cons op rest ih =>
      intro t
      simp only [List.cons_append, drainResults, run_cons, List.append_eq]
      rw [ih (t.step op), List.append_assoc]

theorem supCountR_append (l1 l2 : List Op) (id : Id) :
    ∀ t : RequestTracker, supCountR t (l1 ++ l2) id =
      supCountR t l1 id + supCountR (RequestTracker.run t l1) l2 id := by
  induction l1 with
  | nil =>
      intro t
      simp [supCountR, RequestTracker.run]
  | cons op rest ih =>
      intro t
      simp only [List.cons_append, supCountR, run_cons, List.append_eq]
      rw [ih (t.step op)]
      omega

theorem admOcc_append (ds1 ds2 : List DrainResult) (id : Id) :
    admOcc (ds1 ++ ds2) id = admOcc ds1 id + admOcc ds2 id := by
  simp [admOcc]

theorem AdmittedBy_append {ds1 ds2 : List DrainResult} {id : Id} :
    AdmittedBy (ds1 ++ ds2) id ↔ AdmittedBy ds1 id ∨ AdmittedBy ds2 id := by
  simp only [AdmittedBy, List.mem_append]
  constructor
  · rintro ⟨d, (hd | hd), hm⟩
    · exact Or.inl ⟨d, hd, hm⟩
    · exact Or.inr ⟨d, hd, hm⟩
  · rintro (⟨d, hd, hm⟩ | ⟨d, hd, hm⟩)
    · exact ⟨d, Or.inl hd, hm⟩
    · exact ⟨d, Or.inr hd, hm⟩

theorem admOcc_pos_iff (ds : List DrainResult) (id : Id) :
    0 < admOcc ds id ↔ AdmittedBy ds id := by
  induction ds with
  | nil => simp [admOcc, AdmittedBy]
  | cons d rest ih =>
      have hsplit : admOcc (d :: rest) id =
          (admIds d.newAdmissions).count id + admOcc rest id := by
        simp [admOcc]
      have hcons : AdmittedBy (d :: rest) id ↔
          id ∈ admIds d.newAdmissions ∨ AdmittedBy rest id := by
        simp only [AdmittedBy, List.mem_cons]
        constructor
        · rintro ⟨d2, (rfl | hd), hm⟩
          · exact Or.inl hm
          · exact Or.inr ⟨d2, hd, hm⟩
        · rintro (h | ⟨d2, hd, hm⟩)
          · exact ⟨d, Or.inl rfl, h⟩
          · exact ⟨d2, Or.inr hd, hm⟩
      rw [hsplit, hcons, ← ih, ← List.count_pos_iff]
      omega

end Tracker

namespace Tracker

theorem suppressesB_eq_true {t : RequestTracker} {id : Id} :
    suppressesB t id = true ↔
      id ∈ admIds t.pendingNew ∧
        ∃ s, lookupA t.active id = some s ∧ s.finished = false := by
  unfold suppressesB
  cases hl : lookupA t.active id with
  | none => simp [hl]
  | some s =>
      cases hf : s.finished with
      | true => simp [hl, hf]
      | false => simp [hl, hf]

theorem cwp_cons (t : RequestTracker) (op : Op) (rest : List Op) (id : Id) :
    cancelledWhilePending t (op :: rest) id ↔
      ((op = Op.cancel id ∧ suppressesB t id = true) ∨
        cancelledWhilePending (t.step op) rest id) := by
  constructor
  · rintro ⟨k, hk, hop, hsup⟩
    cases k with
    | zero =>
        left
        refine ⟨?_, ?_⟩
        · simpa using hop
        · simpa [run_nil] using hsup
    | succ j =>
        right
        refine ⟨j, ?_, ?_, ?_⟩
        · exact Nat.lt_of_succ_lt_succ (by simpa using hk)
        · simpa using hop
        · simpa [List.take_succ_cons, run_cons] using hsup
  · rintro (⟨hop, hsup⟩ | ⟨j, hj, hop, hsup⟩)
    · exact ⟨0, by simp, by simpa using hop, by simpa [run_nil] using hsup⟩
    · exact ⟨j + 1, by simpa using Nat.succ_lt_succ hj, by simpa using hop,
        by simpa [List.take_succ_cons, run_cons] using hsup⟩

theorem supCountR_pos_iff (ops : List Op) (id : Id) :
    ∀ t : RequestTracker,
      (0 < supCountR t ops id ↔ cancelledWhilePending t ops id) := by
  induction ops with
  | nil =>
      intro t
      simp [supCountR, cancelledWhilePending]
  | cons op rest ih =>
      intro t
      rw [cwp_cons]
      simp only [supCountR]
      by_cases hc : op = Op.cancel id ∧ suppressesB t id = true
      · rw [if_pos hc]
        constructor
        · intro _
          exact Or.inl hc
        · intro _
          omega
      · rw [if_neg hc, Nat.zero_add, ih (t.step op)]
        constructor
        · exact Or.inr
        · rintro (h | h)
          · exact absurd h hc
          · exact h

theorem cwp_append_left {t : RequestTracker} {l1 : List Op} (l2 : List Op)
    {id : Id} (h : cancelledWhilePending t l1 id) :
    cancelledWhilePending t (l1 ++ l2) id := by
  rw [← supCountR_pos_iff] at h ⊢
  rw [supCountR_append]
  omega

theorem cwp_snoc_cancel {t : RequestTracker} (l1 : List Op) {id : Id}
    (h : suppressesB (RequestTracker.run t l1) id = true) :
    cancelledWhilePending t (l1 ++ [Op.cancel id]) id := by
  rw [← supCountR_pos_iff, supCountR_append]
  have hone : 0 < supCountR (RequestTracker.run t l1) [Op.cancel id] id := by
    simp [supCountR, h]
  omega

theorem count_admIds_filter_self (l : List AdmissionRecord) (i : Id) :
    (admIds (l.filter (fun r => r.id != i))).count i = 0 := by
  rw [List.count_eq_zero]
  intro hmem
  simp only [admIds, List.mem_map] at hmem
  obtain ⟨r, hr, hrid⟩ := hmem
  have := (List.mem_filter.mp hr).2
  rw [hrid] at this
  simp at this

theorem count_admIds_filter_le (l : List AdmissionRecord) (f : AdmissionRecord → Bool)
    (id : Id) : (admIds (l.filter f)).count id ≤ (admIds l).count id :=
  List.Sublist.count_le ((l.filter_sublist).map AdmissionRecord.id) id

theorem subCalls_cons_submit (i : Id) (p : Params) (rest : List Op) (id : Id) :
    subCalls (Op.submit i p :: rest) id =
      subCalls rest id + (if i = id then 1 else 0) := by
  by_cases hi : i = id
  · simp [subCalls, List.countP_cons, hi]
  · simp [subCalls, List.countP_cons, hi]

theorem subCalls_cons_other (op : Op) (rest : List Op) (id : Id)
    (h : ∀ i p, op ≠ Op.submit i p) :
    subCalls (op :: rest) id = subCalls rest id := by
  cases op with
  | submit i p => exact absurd rfl (h i p)
  | cancel i => simp [subCalls, List.countP_cons]
  | deliver i r => simp [subCalls, List.countP_cons]
  | drain => simp [subCalls, List.countP_cons]

theorem countInv (ops : List Op) (id : Id) :
    ∀ t : RequestTracker,
      admOcc (drainResults t ops) id + supCountR t ops id ≤
        (admIds t.pendingNew).count id + subCalls ops id := by
  induction ops with
  | nil =>
      intro t
      simp [drainResults, admOcc, supCountR, subCalls]
  | cons op rest ih =>
      intro t
      have hih := ih (t.step op)
      cases op with
      | submit i p =>
          have hdr : drainResults t (Op.submit i p :: rest) =
              drainResults (t.step (Op.submit i p)) rest := rfl
          have hsc : supCountR t (Op.submit i p :: rest) id =
              supCountR (t.step (Op.submit i p)) rest id := by
            have hscond : ¬(Op.submit i p = Op.cancel id ∧
                suppressesB t id = true) := by
              rintro ⟨h1, _⟩
              cases h1
            simp [supCountR, hscond]
          rw [hdr, hsc, subCalls_cons_submit]
          cases hl : lookupA t.active i with
          | some s =>
              have hst : t.step (Op.submit i p) = t := by
                simp [RequestTracker.step, RequestTracker.submit, hl]
              rw [hst] at hih
              rw [hst]
              omega
          | none =>
              have hst : (t.step (Op.submit i p)).pendingNew =
                  t.pendingNew ++ [{ id := i, params := p }] := by
                simp [RequestTracker.step, RequestTracker.submit, hl]
              have hcnt : (admIds (t.step (Op.submit i p)).pendingNew).count id =
                  (admIds t.pendingNew).count id + (if i = id then 1 else 0) := by
                rw [hst]
                by_cases hi : i = id
                · subst hi
                  simp [admIds, List.count_append, List.count_cons]
                · have hne : ¬id = i := fun h => hi h.symm
                  simp [admIds, List.count_append, List.count_cons, hne, hi]
              rw [hcnt] at hih
              omega
      | cancel i =>
          have hdr : drainResults t (Op.cancel i :: rest) =
              drainResults (t.step (Op.cancel i)) rest := rfl
          have hsubc : subCalls (Op.cancel i :: rest) id = subCalls rest id :=
            subCalls_cons_other _ _ _ (by intro a b h; cases h)
          rw [hdr, hsubc]
          by_cases hc : Op.cancel i = Op.cancel id ∧ suppressesB t id = true
          · have hsc : supCountR t (Op.cancel i :: rest) id =
                1 + supCountR (t.step (Op.cancel i)) rest id := by
              simp [supCountR, hc]
            obtain ⟨hii, hsupp⟩ := hc
            injection hii with hii
            subst hii
            obtain ⟨hmem, s, hl, hf⟩ := suppressesB_eq_true.mp hsupp
            have hst : (t.step (Op.cancel i)).pendingNew =
                t.pendingNew.filter (fun r => r.id != i) := by
              rw [show t.step (Op.cancel i) = t.cancel i from rfl,
                cancel_of_unfinished hl hf]
            have hcnt : (admIds (t.step (Op.cancel i)).pendingNew).count i = 0 := by
              rw [hst]
              exact count_admIds_filter_self _ _
            rw [hcnt] at hih
            have hpos : 0 < (admIds t.pendingNew).count i :=
              List.count_pos_iff.mpr hmem
            rw [hsc]
            omega
          · have hsc : supCountR t (Op.cancel i :: rest) id =
                supCountR (t.step (Op.cancel i)) rest id := by
              have heq : supCountR t (Op.cancel i :: rest) id =
                  (if Op.cancel i = Op.cancel id ∧ suppressesB t id = true
                   then 1 else 0) +
                    supCountR (t.step (Op.cancel i)) rest id := rfl
              rw [heq, if_neg hc, Nat.zero_add]
            have hle : (admIds (t.step (Op.cancel i)).pendingNew).count id ≤
                (admIds t.pendingNew).count id := by
              cases hl : lookupA t.active i with
              | none =>
                  rw [show t.step (Op.cancel i) = t.cancel i from rfl,
                    cancel_of_none hl]
              | some s =>
                  cases hf : s.finished with
                  | true =>
                      rw [show t.step (Op.cancel i) = t.cancel i from rfl,
                        cancel_of_finished hl hf]
                  | false =>
                      rw [show t.step (Op.cancel i) = t.cancel i from rfl,
                        cancel_of_unfinished hl hf]
                      exact count_admIds_filter_le _ _ _
            rw [hsc]
            omega
      | deliver i r =>
          have hdr : drainResults t (Op.deliver i r :: rest) =
              drainResults (t.step (Op.deliver i r)) rest := rfl
          have hsubc : subCalls (Op.deliver i r :: rest) id = subCalls rest id :=
            subCalls_cons_other _ _ _ (by intro a b h; cases h)
          have hsc : supCountR t (Op.deliver i r :: rest) id =
              supCountR (t.step (Op.deliver i r)) rest id := by
            have hscond : ¬(Op.deliver i r = Op.cancel id ∧
                suppressesB t id = true) := by
              rintro ⟨h1, _⟩
              cases h1
            simp [supCountR, hscond]
          have hpn : (t.step (Op.deliver i r)).pendingNew = t.pendingNew := by
            cases hl : lookupA t.active i with
            | none =>
                rw [show t.step (Op.deliver i r) = t.deliverResult i r from rfl,
                  deliverResult_of_none r hl]
            | some s =>
                cases hf : s.finished with
                | true =>
                    rw [show t.step (Op.deliver i r) = t.deliverResult i r from rfl,
                      deliverResult_of_finished r hl hf]
                | false =>
                    rw [show t.step (Op.deliver i r) = t.deliverResult i r from rfl,
                      deliverResult_of_unfinished r hl hf]
          rw [hpn] at hih
          rw [hdr, hsubc, hsc]
          exact hih
      | drain =>
          have hdr : drainResults t (Op.drain :: rest) =
              (t.drain).1 :: drainResults (t.step Op.drain) rest := rfl
          have hsubc : subCalls (Op.drain :: rest) id = subCalls rest id :=
            subCalls_cons_other _ _ _ (by intro a b h; cases h)
          have hsc : supCountR t (Op.drain :: rest) id =
              supCountR (t.step Op.drain) rest id := by
            have hscond : ¬(Op.drain = Op.cancel id ∧
                suppressesB t id = true) := by
              rintro ⟨h1, _⟩
              cases h1
            simp [supCountR, hscond]
          have hocc : admOcc ((t.drain).1 :: drainResults (t.step Op.drain) rest) id =
              (admIds t.pendingNew).count id +
                admOcc (drainResults (t.step Op.drain) rest) id := by
            simp [admOcc, RequestTracker.drain]
          have hpn : (admIds (t.step Op.drain).pendingNew).count id = 0 := rfl
          rw [hpn] at hih
          rw [hdr, hsubc, hsc, hocc]
          omega
theorem trackerInv_snoc_submit (q : List Op) (i : Id) (p : Params)
    (h : TrackerInv q) : TrackerInv (q ++ [Op.submit i p]) := by
  obtain ⟨h1, h2, h3, h4⟩ := h
  have hrun : RequestTracker.run RequestTracker.init (q ++ [Op.submit i p]) =
      (RequestTracker.run RequestTracker.init q).step (Op.submit i p) := by
    rw [run_append]
    rfl
  have hds : drainResults RequestTracker.init (q ++ [Op.submit i p]) =
      drainResults RequestTracker.init q ++
        emits (RequestTracker.run RequestTracker.init q) (Op.submit i p) := by
    rw [drainResults_append]
    simp [drainResults]
  unfold TrackerInv
  rw [hrun, hds]
  set t := RequestTracker.run RequestTracker.init q with ht
  have hem : emits t (Op.submit i p) = ([] : List DrainResult) := rfl
  rw [hem, List.append_nil]
  cases hl : lookupA t.active i with
  | some s =>
      have hst : t.step (Op.submit i p) = t := by
        simp [RequestTracker.step, RequestTracker.submit, hl]
      rw [hst]
      refine ⟨?_, h2, h3, h4⟩
      intro id hid
      rcases h1 id hid with hA | hA | hA
      · exact Or.inl hA
      · exact Or.inr (Or.inl hA)
      · exact Or.inr (Or.inr (cwp_append_left _ hA))
  | none =>
      have hst : t.step (Op.submit i p) =
          { active := t.active ++ [(i, OutputStream.empty)],
            pendingNew := t.pendingNew ++ [{ id := i, params := p }],
            pendingFinished := t.pendingFinished,
            wake := true } := by
        simp [RequestTracker.step, RequestTracker.submit, hl]
      rw [hst]
      dsimp only
      have hadm : admIds (t.pendingNew ++ [{ id := i, params := p }]) =
          admIds t.pendingNew ++ [i] := by
        simp [admIds]
      refine ⟨?_, ?_, ?_, ?_⟩
      · intro id hid
        rcases h1 id hid with hA | hA | hA
        · rw [hadm]
          exact Or.inl (List.mem_append.mpr (Or.inl hA))
        · exact Or.inr (Or.inl hA)
        · exact Or.inr (Or.inr (cwp_append_left _ hA))
      · intro e he hfin
        rcases List.mem_append.mp he with he1 | he1
        · rcases h2 e he1 hfin with hA | hA
          · rw [hadm]
            exact Or.inl (List.mem_append.mpr (Or.inl hA))
          · exact Or.inr hA
        · have hei : e = (i, OutputStream.empty) := by
            simpa using he1
          rw [hadm, hei]
          exact Or.inl (List.mem_append.mpr (Or.inr (by simp)))
      · intro id hid
        obtain ⟨s2, hs2, hfin⟩ := h3 id hid
        exact ⟨s2, lookupA_append_of_some hs2, hfin⟩
      · simp only [List.map_append, List.map_cons, List.map_nil]
        rw [List.nodup_append]
        refine ⟨h4, List.nodup_singleton i, ?_⟩
        intro x hx hx2
        have hxi : x = i := by simpa using hx2
        subst hxi
        exact lookupA_none_not_mem hl hx

theorem trackerInv_snoc_drain (q : List Op) (h : TrackerInv q) :
    TrackerInv (q ++ [Op.drain]) := by
  obtain ⟨h1, h2, h3, h4⟩ := h
  have hrun : RequestTracker.run RequestTracker.init (q ++ [Op.drain]) =
      (RequestTracker.run RequestTracker.init q).step Op.drain := by
    rw [run_append]
    rfl
  have hds : drainResults RequestTracker.init (q ++ [Op.drain]) =
      drainResults RequestTracker.init q ++
        emits (RequestTracker.run RequestTracker.init q) Op.drain := by
    rw [drainResults_append]
    simp [drainResults]
  unfold TrackerInv
  rw [hrun, hds]
  set t := RequestTracker.run RequestTracker.init q with ht
  have hem : emits t Op.drain = [(t.drain).1] := rfl
  rw [hem]
  have hst : t.step Op.drain = (t.drain).2 := rfl
  rw [hst]
  refine ⟨?_, ?_, ?_, ?_⟩
  · intro id hid
    cases hid
  · intro e he hfin
    have he1 : e ∈ t.active := (List.mem_filter.mp he).1
    rcases h2 e he1 hfin with hA | hA
    · refine Or.inr (AdmittedBy_append.mpr (Or.inr ⟨(t.drain).1, by simp, ?_⟩))
      exact hA
    · exact Or.inr (AdmittedBy_append.mpr (Or.inl hA))
  · intro id hid
    cases hid
  · exact ((List.filter_sublist _).map Prod.fst).nodup h4

theorem trackerInv_snoc_cancel (q : List Op) (i : Id) (h : TrackerInv q) :
    TrackerInv (q ++ [Op.cancel i]) := by
  obtain ⟨h1, h2, h3, h4⟩ := h
  have hrun : RequestTracker.run RequestTracker.init (q ++ [Op.cancel i]) =
      (RequestTracker.run RequestTracker.init q).step (Op.cancel i) := by
    rw [run_append]
    rfl
  have hds : drainResults RequestTracker.init (q ++ [Op.cancel i]) =
      drainResults RequestTracker.init q ++
        emits (RequestTracker.run RequestTracker.init q) (Op.cancel i) := by
    rw [drainResults_append]
    simp [drainResults]
  unfold TrackerInv
  rw [hrun, hds]
  set t := RequestTracker.run RequestTracker.init q with ht
  have hem : emits t (Op.cancel i) = ([] : List DrainResult) := rfl
  rw [hem, List.append_nil]
  cases hl : lookupA t.active i with
  | none =>
      rw [show t.step (Op.cancel i) = t.cancel i from rfl, cancel_of_none hl]
      refine ⟨?_, h2, h3, h4⟩
      intro id hid
      rcases h1 id hid with hA | hA | hA
      · exact Or.inl hA
      · exact Or.inr (Or.inl hA)
      · exact Or.inr (Or.inr (cwp_append_left _ hA))
  | some s =>
      cases hf : s.finished with
      | true =>
          rw [show t.step (Op.cancel i) = t.cancel i from rfl,
            cancel_of_finished hl hf]
          refine ⟨?_, h2, h3, h4⟩
          intro id hid
          rcases h1 id hid with hA | hA | hA
          · exact Or.inl hA
          · exact Or.inr (Or.inl hA)
          · exact Or.inr (Or.inr (cwp_append_left _ hA))
      | false =>
          have hipf : i ∉ t.pendingFinished := by
            intro hipf
            obtain ⟨s2, hs2, hf2⟩ := h3 i hipf
            rw [hl] at hs2
            injection hs2 with hs2
            rw [← hs2, hf] at hf2
            cases hf2
          have hst : t.step (Op.cancel i) =
              { active := updateA t.active i
                  { s with finished := true, cancelled := true },
                pendingNew := t.pendingNew.filter (fun r => r.id != i),
                pendingFinished :=
                  if i ∈ t.pendingFinished then t.pendingFinished
                  else t.pendingFinished ++ [i],
                wake := true } := by
            rw [show t.step (Op.cancel i) = t.cancel i from rfl,
              cancel_of_unfinished hl hf]
          rw [hst]
          dsimp only
          rw [if_neg hipf]
          have hmem_s : (i, s) ∈ t.active := lookupA_some_mem hl
          refine ⟨?_, ?_, ?_, ?_⟩
          · intro id hid
            rcases List.mem_append.mp hid with hid1 | hid1
            · have hidne : id ≠ i := by
                intro hh
                subst hh
                exact hipf hid1
              rcases h1 id hid1 with hA | hA | hA
              · exact Or.inl (mem_admIds_filter_ne hA hidne)
              · exact Or.inr (Or.inl hA)
              · exact Or.inr (Or.inr (cwp_append_left _ hA))
            · have hii : id = i := by
                simpa using hid1
              subst hii
              by_cases hpend : id ∈ admIds t.pendingNew
              · refine Or.inr (Or.inr ?_)
                exact cwp_snoc_cancel q (suppressesB_eq_true.mpr ⟨hpend, s, hl, hf⟩)
              · rcases h2 (id, s) hmem_s hf with hA | hA
                · exact absurd hA hpend
                · exact Or.inr (Or.inl hA)
          · intro e he hfin
            rcases mem_updateA_nodup h4 he with ⟨he1, hene⟩ | he1
            · rcases h2 e he1 hfin with hA | hA
              · exact Or.inl (mem_admIds_filter_ne hA hene)
              · exact Or.inr hA
            · rw [he1] at hfin
              cases hfin
          · intro id hid
            rcases List.mem_append.mp hid with hid1 | hid1
            · obtain ⟨s2, hs2, hf2⟩ := h3 id hid1
              have hidne : id ≠ i := by
                intro hh
                subst hh
                rw [hl] at hs2
                injection hs2 with hs2
                rw [← hs2, hf] at hf2
                cases hf2
              refine ⟨s2, ?_, hf2⟩
              rw [lookupA_updateA_ne _ hidne]
              exact hs2
            · have hii : id = i := by
                simpa using hid1
              subst hii
              exact ⟨{ s with finished := true, cancelled := true },
                lookupA_updateA_self _ hl, rfl⟩
          · rw [keys_updateA]
            exact h4

theorem trackerInv_snoc_deliver (q : List Op) (i : Id) (r : Result)
    (h : TrackerInv q) : TrackerInv (q ++ [Op.deliver i r]) := by
  obtain ⟨h1, h2, h3, h4⟩ := h
  have hrun : RequestTracker.run RequestTracker.init (q ++ [Op.deliver i r]) =
      (RequestTracker.run RequestTracker.init q).step (Op.deliver i r) := by
    rw [run_append]
    rfl
  have hds : drainResults RequestTracker.init (q ++ [Op.deliver i r]) =
      drainResults RequestTracker.init q ++
        emits (RequestTracker.run RequestTracker.init q) (Op.deliver i r) := by
    rw [drainResults_append]
    simp [drainResults]
  unfold TrackerInv
  rw [hrun, hds]
  set t := RequestTracker.run RequestTracker.init q with ht
  have hem : emits t (Op.deliver i r) = ([] : List DrainResult) := rfl
  rw [hem, List.append_nil]
  cases hl : lookupA t.active i with
  | none =>
      rw [show t.step (Op.deliver i r) = t.deliverResult i r from rfl,
        deliverResult_of_none r hl]
      refine ⟨?_, h2, h3, h4⟩
      intro id hid
      rcases h1 id hid with hA | hA | hA
      · exact Or.inl hA
      · exact Or.inr (Or.inl hA)
      · exact Or.inr (Or.inr (cwp_append_left _ hA))
  | some s =>
      cases hf : s.finished with
      | true =>
          rw [show t.step (Op.deliver i r) = t.deliverResult i r from rfl,
            deliverResult_of_finished r hl hf]
          refine ⟨?_, h2, h3, h4⟩
          intro id hid
          rcases h1 id hid with hA | hA | hA
          · exact Or.inl hA
          · exact Or.inr (Or.inl hA)
          · exact Or.inr (Or.inr (cwp_append_left _ hA))
      | false =>
          have hipf : i ∉ t.pendingFinished := by
            intro hipf
            obtain ⟨s2, hs2, hf2⟩ := h3 i hipf
            rw [hl] at hs2
            injection hs2 with hs2
            rw [← hs2, hf] at hf2
            cases hf2
          have hst : t.step (Op.deliver i r) =
              { active := updateA t.active i
                  { s with results := s.results ++ [r], finished := r.isFinal },
                pendingNew := t.pendingNew,
                pendingFinished :=
                  if r.isFinal then
                    (if i ∈ t.pendingFinished then t.pendingFinished
                     else t.pendingFinished ++ [i])
                  else t.pendingFinished,
                wake := r.isFinal || t.wake } := by
            rw [show t.step (Op.deliver i r) = t.deliverResult i r from rfl,
              deliverResult_of_unfinished r hl hf]
          rw [hst]
          dsimp only
          rw [if_neg hipf]
          have hmem_s : (i, s) ∈ t.active := lookupA_some_mem hl
          cases hrf : r.isFinal with
          | false =>
              rw [if_neg Bool.false_ne_true]
              refine ⟨?_, ?_, ?_, ?_⟩
              · intro id hid
                rcases h1 id hid with hA | hA | hA
                · exact Or.inl hA
                · exact Or.inr (Or.inl hA)
                · exact Or.inr (Or.inr (cwp_append_left _ hA))
              · intro e he hfin
                rcases mem_updateA_nodup h4 he with ⟨he1, hene⟩ | he1
                · rcases h2 e he1 hfin with hA | hA
                  · exact Or.inl hA
                  · exact Or.inr hA
                · rw [he1]
                  rcases h2 (i, s) hmem_s hf with hA | hA
                  · exact Or.inl hA
                  · exact Or.inr hA
              · intro id hid
                obtain ⟨s2, hs2, hf2⟩ := h3 id hid
                have hidne : id ≠ i := by
                  intro hh
                  subst hh
                  rw [hl] at hs2
                  injection hs2 with hs2
                  rw [← hs2, hf] at hf2
                  cases hf2
                refine ⟨s2, ?_, hf2⟩
                rw [lookupA_updateA_ne _ hidne]
                exact hs2
              · rw [keys_updateA]
                exact h4
          | true =>
              rw [if_pos rfl]
              refine ⟨?_, ?_, ?_, ?_⟩
              · intro id hid
                rcases List.mem_append.mp hid with hid1 | hid1
                · rcases h1 id hid1 with hA | hA | hA
                  · exact Or.inl hA
                  · exact Or.inr (Or.inl hA)
                  · exact Or.inr (Or.inr (cwp_append_left _ hA))
                · have hii : id = i := by
                    simpa using hid1
                  subst hii
                  rcases h2 (id, s) hmem_s hf with hA | hA
                  · exact Or.inl hA
                  · exact Or.inr (Or.inl hA)
              · intro e he hfin
                rcases mem_updateA_nodup h4 he with ⟨he1, hene⟩ | he1
                · rcases h2 e he1 hfin with hA | hA
                  · exact Or.inl hA
                  · exact Or.inr hA
                · rw [he1] at hfin
                  cases hfin
              · intro id hid
                rcases List.mem_append.mp hid with hid1 | hid1
                · obtain ⟨s2, hs2, hf2⟩ := h3 id hid1
                  have hidne : id ≠ i := by
                    intro hh
                    subst hh
                    rw [hl] at hs2
                    injection hs2 with hs2
                    rw [← hs2, hf] at hf2
                    cases hf2
                  refine ⟨s2, ?_, hf2⟩
                  rw [lookupA_updateA_ne _ hidne]
                  exact hs2
                · have hii : id = i := by
                    simpa using hid1
                  subst hii
                  exact ⟨{ s with results := s.results ++ [r], finished := true },
                    lookupA_updateA_self _ hl, rfl⟩
              · rw [keys_updateA]
                exact h4

theorem trackerInv_all (q : List Op) : TrackerInv q := by
  induction q using List.reverseRecOn with
  | nil =>
      unfold TrackerInv
      refine ⟨?_, ?_, ?_, ?_⟩ <;>
        simp [RequestTracker.run, RequestTracker.init, drainResults]
  | append_singleton q op ih =>
      cases op with
      | submit i p => exact trackerInv_snoc_submit q i p ih
      | cancel i => exact trackerInv_snoc_cancel q i ih
      | deliver i r => exact trackerInv_snoc_deliver q i r ih
      | drain => exact trackerInv_snoc_drain q ih

theorem subCalls_append (l1 l2 : List Op) (id : Id) :
    subCalls (l1 ++ l2) id = subCalls l1 id + subCalls l2 id := by
  simp [subCalls, List.countP_append]

/-- Claim C2 is false as stated: a final result delivered before the
admission is drained makes the same drain report the admission and the
finish together, so the finish is reported although neither a strictly
earlier drain reported the admission nor any cancellation occurred; and an
identifier resubmitted after a suppressed cancellation can satisfy both
causes at once, refuting the exclusivity clause on the same trace. -/
theorem claim_C2_counterexample :
    ¬ claimC2stated [Op.submit "x" 0,
      Op.deliver "x" { payload := 0, isFinal := true }, Op.drain,
      Op.submit "x" 1, Op.cancel "x", Op.drain] := by
  decide

/-- Claim C2 (amended): every identifier reported finished by a drain was,
by the end of that drain call, either reported as newly admitted by that
same drain or an earlier one, or cancelled at a moment when its admission
record was still pending (so no drain ever observed that admission); and
when the identifier is submitted at most once in the whole sequence, the
two causes are mutually exclusive. -/
theorem claim_C2_amended (ops : List Op) (k : Nat) (hk : ops[k]? = some Op.drain)
    (id : Id)
    (hid : id ∈ (RequestTracker.run RequestTracker.init (ops.take k)).pendingFinished) :
    (AdmittedBy (drainResults RequestTracker.init (ops.take (k + 1))) id ∨
      cancelledWhilePending RequestTracker.init (ops.take k) id) ∧
    (subCalls ops id ≤ 1 →
      ¬(AdmittedBy (drainResults RequestTracker.init (ops.take (k + 1))) id ∧
        cancelledWhilePending RequestTracker.init (ops.take k) id)) := by
  have htake : ops.take (k + 1) = ops.take k ++ [Op.drain] := by
    rw [List.take_succ, hk]
    rfl
  constructor
  · obtain ⟨h1, h2, h3, h4⟩ := trackerInv_all (ops.take k)
    rcases h1 id hid with hA | hA | hA
    · left
      rw [htake, drainResults_append]
      refine AdmittedBy_append.mpr (Or.inr ?_)
      exact ⟨((RequestTracker.run RequestTracker.init (ops.take k)).drain).1,
        by simp [drainResults, emits], hA⟩
    · left
      rw [htake, drainResults_append]
      exact AdmittedBy_append.mpr (Or.inl hA)
    · exact Or.inr hA
  · intro hsub hAB
    obtain ⟨hA, hB⟩ := hAB
    have hc1 : 0 < admOcc (drainResults RequestTracker.init (ops.take (k + 1))) id :=
      (admOcc_pos_iff _ _).mpr hA
    have hc2 : 0 < supCountR RequestTracker.init (ops.take k) id :=
      (supCountR_pos_iff _ _ _).mpr hB
    have hc3 : supCountR RequestTracker.init (ops.take k) id ≤
        supCountR RequestTracker.init (ops.take (k + 1)) id := by
      rw [htake, supCountR_append]
      omega
    have hc4 := countInv (ops.take (k + 1)) id RequestTracker.init
    have hc5 : (admIds (RequestTracker.init).pendingNew).count id = 0 := rfl
    have hc6 : subCalls (ops.take (k + 1)) id ≤ subCalls ops id := by
      conv_rhs => rw [← List.take_append_drop (k + 1) ops]
      rw [subCalls_append]
      omega
    omega

theorem claim_C2_amended_witness :
    ([Op.submit "y" 0, Op.cancel "y", Op.drain][2]? = some Op.drain) ∧
      ("y" ∈ (RequestTracker.run RequestTracker.init
          ([Op.submit "y" 0, Op.cancel "y", Op.drain].take 2)).pendingFinished) ∧
      ((AdmittedBy (drainResults RequestTracker.init
            ([Op.submit "y" 0, Op.cancel "y", Op.drain].take (2 + 1))) "y" ∨
          cancelledWhilePending RequestTracker.init
            ([Op.submit "y" 0, Op.cancel "y", Op.drain].take 2) "y") ∧
        (subCalls [Op.submit "y" 0, Op.cancel "y", Op.drain] "y" ≤ 1 →
          ¬(AdmittedBy (drainResults RequestTracker.init
              ([Op.submit "y" 0, Op.cancel "y", Op.drain].take (2 + 1))) "y" ∧
            cancelledWhilePending RequestTracker.init
              ([Op.submit "y" 0, Op.cancel "y", Op.drain].take 2) "y"))) :=
  ⟨rfl, by decide,
    claim_C2_amended [Op.submit "y" 0, Op.cancel "y", Op.drain] 2 rfl "y" (by decide)⟩

end Tracker
